import Mathlib

/-!
Shallow embedding of the deterministic signal-processing core of
`services/ml/main.py` (MoodQuiz): tokenizer, lexicon phrase matcher,
VAD aggregation, mood projection, blending and the inference
orchestrator.  Python floats are modelled as rationals; Python
`round(x, 4)` as `round4`; text as `List Char`; the lexicon index as an
association list of (token-sequence, VAD) entries; the external
classifier's output (out of scope in the source) is a parameter.
-/

namespace MoodQuiz

/-- A VAD triple (valence, arousal, dominance), each in [0,1]. -/
abbrev VAD := ℚ × ℚ × ℚ

/-- Python `round(x, 4)`: round to 4 decimal places. -/
def round4 (x : ℚ) : ℚ := (round (x * 10000) : ℤ) / 10000

/-- `max(0.0, min(1.0, x))` as used throughout `main.py`. -/
def clamp01 (x : ℚ) : ℚ := max 0 (min 1 x)

/-- The 5-dimension mood vector (`DEFAULT_MOOD`-shaped dict in the source).
Modelling the dict as a structure makes "every dimension is always
present" structural. -/
structure Mood where
  valence : ℚ
  energy : ℚ
  focus : ℚ
  danceability : ℚ
  tempo_pref : ℚ
deriving DecidableEq, Repr

/-- `DEFAULT_MOOD = {"valence":0.5, ...}` (main.py line 65). -/
def DEFAULT_MOOD : Mood := ⟨1/2, 1/2, 1/2, 1/2, 1/2⟩

/-- `EMOTION_TO_MOOD` table (main.py lines 51-64). -/
def EMOTION_TO_MOOD : List (String × Mood) :=
  [ ("joy",        ⟨9/10,  7/10, 4/10,  7/10,  3/4⟩),
    ("love",       ⟨17/20, 6/10, 5/10,  6/10,  13/20⟩),
    ("admiration", ⟨8/10,  6/10, 6/10,  5/10,  13/20⟩),
    ("surprise",   ⟨7/10,  8/10, 4/10,  6/10,  8/10⟩),
    ("anger",      ⟨1/10,  9/10, 3/10,  4/10,  17/20⟩),
    ("sadness",    ⟨1/10,  2/10, 6/10,  3/10,  7/20⟩),
    ("fear",       ⟨3/20,  6/10, 5/10,  3/10,  6/10⟩),
    ("disgust",    ⟨2/10,  5/10, 4/10,  3/10,  11/20⟩),
    ("optimism",   ⟨8/10,  6/10, 6/10,  6/10,  13/20⟩),
    ("curiosity",  ⟨7/10,  5/10, 7/10,  5/10,  11/20⟩),
    ("nervous",    ⟨6/25,  79/100, 19/50, 7/20, 13/20⟩),
    ("neutral",    ⟨1/2,   1/2,  1/2,   1/2,   1/2⟩) ]

/-- `EMOTION_TO_MOOD.get(label)` (Python dict lookup). -/
def lookupEmotion (label : String) : Option Mood :=
  (EMOTION_TO_MOOD.find? (fun p => p.1 == label)).map (fun p => p.2)

/-- `blend_moods(a, b, wa)` (main.py lines 67-73): per-dimension
`round(a[k]*wa + b[k]*(1-wa), 4)`.  With the structure model every key
is present, so `a.get(k, 0.5)` is plain field access. -/
def blend_moods (a b : Mood) (wa : ℚ) : Mood :=
  let wb := 1 - wa
  { valence      := round4 (a.valence * wa + b.valence * wb)
    energy       := round4 (a.energy * wa + b.energy * wb)
    focus        := round4 (a.focus * wa + b.focus * wb)
    danceability := round4 (a.danceability * wa + b.danceability * wb)
    tempo_pref   := round4 (a.tempo_pref * wa + b.tempo_pref * wb) }

/-- `music_mood_from_vad(v, a, d)` (main.py lines 190-210). -/
def music_mood_from_vad (v a d : ℚ) : Mood :=
  let valence := v
  let energy := a
  let focus := clamp01 ((1 - (7/10) * a) + (2/10) * d)
  let danceability := clamp01 (35/100 + (45/100) * a + (20/100) * max 0 (v - 1/2))
  let tempo_pref := a
  { valence      := round4 valence
    energy       := round4 energy
    focus        := round4 focus
    danceability := round4 danceability
    tempo_pref   := round4 tempo_pref }

/-- `_norm01(x)` (main.py lines 89-91): rescale [-1,1] to [0,1] with clamping. -/
def norm01 (x : ℚ) : ℚ := max 0 (min 1 ((x + 1) / 2))

/-- Character class of the regex `[a-z']`: lowercase ASCII letter or
apostrophe (code point 39). -/
def isWordChar (c : Char) : Bool :=
  (97 ≤ c.toNat && c.toNat ≤ 122) || c.toNat == 39

/-- ASCII lowercasing of one character (Python `str.lower()` on the
ASCII range, which is all the tokenizer's character class can keep). -/
def lowerChar (c : Char) : Char :=
  if 65 ≤ c.toNat ∧ c.toNat ≤ 90 then Char.ofNat (c.toNat + 32) else c

/-- Maximal-run extraction of `_word_re.findall`: accumulate the current
run (reversed) in `cur`; a non-class character closes the run. -/
def tokenizeAux : List Char → List Char → List (List Char)
  | [], cur => if cur = [] then [] else [cur.reverse]
  | c :: rest, cur =>
    if isWordChar c then tokenizeAux rest (c :: cur)
    else if cur = [] then tokenizeAux rest [] else cur.reverse :: tokenizeAux rest []

/-- `tokenize(text)` (main.py lines 82-83): lowercase, then take maximal
runs of `[a-z']`.  (The source's second per-word `.lower()` is a no-op:
run characters are already lowercase.) -/
def tokenize (text : List Char) : List (List Char) :=
  tokenizeAux (text.map lowerChar) []

/-- `" ".join(tokens)`. -/
def joinTokens : List (List Char) → List Char
  | [] => []
  | [t] => t
  | t :: ts => t ++ ' ' :: joinTokens ts

/-- One lexicon entry: a phrase (token sequence) and its normalized VAD
triple.  This is the data content of `_index_by_first` /
`_term_dict` after `load_gitlab_vad` (the CSV is external data, so the
lexicon is a parameter of the model). -/
structure LexEntry where
  phrase : List (List Char)
  vad : VAD
deriving DecidableEq, Repr

abbrev Lexicon := List LexEntry

/-- `_index_by_first[first][L].get(slice)`: the length-indexed structure
holds only phrases of 1..4 tokens (`_max_ngram = 4`, main.py line 127);
lookup is by exact token sequence. -/
def lookupPhrase (lex : Lexicon) (slice : List (List Char)) : Option VAD :=
  if 1 ≤ slice.length ∧ slice.length ≤ 4 then
    (lex.find? (fun e => e.phrase == slice)).map (fun e => e.vad)
  else none

/-- `first in _index_by_first` (main.py line 155): some indexed phrase
(nonempty, ≤ 4 tokens) starts with this token. -/
def firstInIndex (lex : Lexicon) (first : List Char) : Bool :=
  lex.any (fun e => decide (1 ≤ e.phrase.length) && decide (e.phrase.length ≤ 4)
    && e.phrase.headI == first)

/-- The inner `for L in range(min(4, n-i), 0, -1)` loop body: try lengths
`L, L-1, ..., 1`, returning the first (longest) hit with its length. -/
def tryLens (lex : Lexicon) (toks : List (List Char)) (i : ℕ) : ℕ → Option (ℕ × VAD)
  | 0 => none
  | L + 1 =>
    match lookupPhrase lex ((toks.drop i).take (L + 1)) with
    | some vad => some (L + 1, vad)
    | none => tryLens lex toks i L

/-- One position of the scan loop (main.py lines 150-167): if the first
token is not in the index the inner loop breaks with no match; otherwise
the longest matching length in `min(4, n-i) .. 1` wins. -/
def findMatch (lex : Lexicon) (toks : List (List Char)) (i : ℕ) : Option (ℕ × VAD) :=
  if firstInIndex lex (toks.getD i []) then
    tryLens lex toks i (min 4 (toks.length - i))
  else none

/-- The `while i < n` scan, fuel-indexed for structural recursion: each
iteration either records a match `(i, L, vad)` and advances by `L`, or
advances by 1.  Fuel `toks.length` always suffices (proved below). -/
def scanFuel (lex : Lexicon) (toks : List (List Char)) : ℕ → ℕ → List (ℕ × ℕ × VAD)
  | _, 0 => []
  | i, fuel + 1 =>
    if i < toks.length then
      match findMatch lex toks i with
      | some Lv => (i, Lv.1, Lv.2) :: scanFuel lex toks (i + Lv.1) fuel
      | none => scanFuel lex toks (i + 1) fuel
    else []

/-- The matches recorded by one full scan, as (position, length, VAD). -/
def scanMatches (lex : Lexicon) (toks : List (List Char)) : List (ℕ × ℕ × VAD) :=
  scanFuel lex toks 0 toks.length

/-- The matched phrase (token slice) of a recorded match. -/
def phraseOf (toks : List (List Char)) (m : ℕ × ℕ × VAD) : List (List Char) :=
  (toks.drop m.1).take m.2.1

/-- `counts[term_key]` for one recorded match: occurrences of the same
phrase anywhere in the scan (`Counter` keyed by the joined term). -/
def matchCount (toks : List (List Char)) (ms : List (ℕ × ℕ × VAD))
    (m : ℕ × ℕ × VAD) : ℕ :=
  (ms.filter (fun m2 => phraseOf toks m2 = phraseOf toks m)).length

/-- The aggregation of `vad_from_text_gitlab` (main.py lines 169-185) on
an already-tokenized input: iterate over the per-occurrence `matches`
list, adding `value * counts[term_key]` to each numerator and
`counts[term_key]` to the weight. -/
def vad_from_toks (lex : Lexicon) (toks : List (List Char)) : Option VAD :=
  let ms := scanMatches lex toks
  if ms = [] then none
  else
    let sum_w : ℕ := (ms.map (fun m => matchCount toks ms m)).sum
    let sum_v : ℚ := (ms.map (fun m => m.2.2.1 * (matchCount toks ms m : ℚ))).sum
    let sum_a : ℚ := (ms.map (fun m => m.2.2.2.1 * (matchCount toks ms m : ℚ))).sum
    let sum_d : ℚ := (ms.map (fun m => m.2.2.2.2 * (matchCount toks ms m : ℚ))).sum
    if sum_w = 0 then none
    else some (round4 (sum_v / (sum_w : ℚ)), round4 (sum_a / (sum_w : ℚ)),
      round4 (sum_d / (sum_w : ℚ)))

/-- `vad_from_text_gitlab(text)` (main.py lines 133-185): tokenize, scan,
aggregate; `None` when the token list is empty or nothing matched. -/
def vad_from_text_gitlab (lex : Lexicon) (text : List Char) : Option VAD :=
  vad_from_toks lex (tokenize text)

/-- An emotion distribution: label/probability pairs (the classifier's
output dict, main.py line 231). -/
abbrev Dist := List (String × ℚ)

/-- Per-dimension numerator of the emotion aggregation (main.py lines
239-245): probability-weighted sum over recognized labels only. -/
def aggDim (emotions : Dist) (f : Mood → ℚ) : ℚ :=
  (emotions.map (fun le => ((lookupEmotion le.1).map (fun mp => le.2 * f mp)).getD 0)).sum

/-- The emotion-distribution-to-mood projection (main.py lines 236-247):
empty dict keeps `DEFAULT_MOOD`; otherwise divide each weighted sum by
`sum(emotions.values()) or 1.0` and round. -/
def mood_from_emotions (emotions : Dist) : Mood :=
  if emotions = [] then DEFAULT_MOOD
  else
    let totalsum0 := (emotions.map (fun le => le.2)).sum
    let totalsum := if totalsum0 = 0 then 1 else totalsum0
    { valence      := round4 (aggDim emotions (fun m => m.valence) / totalsum)
      energy       := round4 (aggDim emotions (fun m => m.energy) / totalsum)
      focus        := round4 (aggDim emotions (fun m => m.focus) / totalsum)
      danceability := round4 (aggDim emotions (fun m => m.danceability) / totalsum)
      tempo_pref   := round4 (aggDim emotions (fun m => m.tempo_pref) / totalsum) }

/-- The response dict of `/ml/infer/text`. -/
structure InferResult where
  emotions : Dist
  mood : Mood
  vad : Option VAD
  source : String
deriving DecidableEq, Repr

/-- Python `text.strip()` yields the empty string: every character is
whitespace. -/
def isBlank (text : List Char) : Bool := text.all Char.isWhitespace

/-- `infer_text` (main.py lines 219-271).  The external classifier call
is out of scope; its returned distribution is the `emotions` parameter
(empty models unavailability/failure, exactly as the code swallows it).
Truthiness in the source: `emotions` is truthy iff nonempty; `vad` is a
3-tuple, always truthy; `mood_from_vad` is a dict, always truthy. -/
def infer_text (lex : Lexicon) (text : List Char) (emotions : Dist) : InferResult :=
  if isBlank text then ⟨[], DEFAULT_MOOD, none, "default"⟩
  else
    let mood_from_em := mood_from_emotions emotions
    match vad_from_text_gitlab lex text with
    | some vad =>
      let mood_from_vad := music_mood_from_vad vad.1 vad.2.1 vad.2.2
      if emotions ≠ [] then
        ⟨emotions, blend_moods mood_from_em mood_from_vad (4/10), some vad,
          "blend(emotions,VAD-gitlab)"⟩
      else ⟨emotions, mood_from_vad, some vad, "VAD-gitlab"⟩
    | none =>
      if emotions ≠ [] then ⟨emotions, mood_from_em, none, "emotions"⟩
      else ⟨emotions, DEFAULT_MOOD, none, "default"⟩

/-! ### Helper lemmas about rounding and clamping -/

lemma round4_nonneg {x : ℚ} (h0 : 0 ≤ x) : 0 ≤ round4 x := by
  unfold round4
  apply div_nonneg _ (by norm_num)
  have : (0 : ℤ) ≤ round (x * 10000) := by
    rw [round_eq]
    exact Int.floor_nonneg.mpr (by linarith)
  exact_mod_cast this

lemma round4_le_one {x : ℚ} (h1 : x ≤ 1) : round4 x ≤ 1 := by
  unfold round4
  rw [div_le_one (by norm_num : (0:ℚ) < 10000)]
  have : round (x * 10000) ≤ (10000 : ℤ) := by
    rw [round_eq]
    have hfl : (⌊x * 10000 + 1/2⌋ : ℤ) ≤ ⌊(10000 : ℚ) + 1/2⌋ := Int.floor_mono (by linarith)
    have : (⌊(10000 : ℚ) + 1/2⌋ : ℤ) = 10000 :=
      Int.floor_eq_iff.mpr ⟨by norm_num, by norm_num⟩
    omega
  exact_mod_cast this

lemma clamp01_nonneg (x : ℚ) : 0 ≤ clamp01 x := le_max_left 0 _

lemma clamp01_le_one (x : ℚ) : clamp01 x ≤ 1 :=
  max_le zero_le_one (min_le_left 1 x)

/-! ### Helper lemmas about the inner longest-match loop -/

lemma tryLens_some_bounds {lex : Lexicon} {toks : List (List Char)} {i : ℕ} :
    ∀ {L L2 : ℕ} {v : VAD}, tryLens lex toks i L = some (L2, v) →
    1 ≤ L2 ∧ L2 ≤ L ∧ lookupPhrase lex ((toks.drop i).take L2) = some v := by
  intro L
  induction L with
  | zero => intro L2 v h; simp [tryLens] at h
  | succ L ih =>
    intro L2 v h
    unfold tryLens at h
    cases hl : lookupPhrase lex ((toks.drop i).take (L + 1)) with
    | some vad =>
      rw [hl] at h
      obtain ⟨h1, h2⟩ := by simpa using h
      subst h1; subst h2
      exact ⟨Nat.succ_le_succ (Nat.zero_le L), le_refl _, hl⟩
    | none =>
      rw [hl] at h
      obtain ⟨g1, g2, g3⟩ := ih h
      exact ⟨g1, Nat.le_succ_of_le g2, g3⟩

lemma tryLens_some_maximal {lex : Lexicon} {toks : List (List Char)} {i : ℕ} :
    ∀ {L L2 : ℕ} {v : VAD}, tryLens lex toks i L = some (L2, v) →
    ∀ L3, L2 < L3 → L3 ≤ L → lookupPhrase lex ((toks.drop i).take L3) = none := by
  intro L
  induction L with
  | zero => intro L2 v h; simp [tryLens] at h
  | succ L ih =>
    intro L2 v h L3 hlt hle
    unfold tryLens at h
    cases hl : lookupPhrase lex ((toks.drop i).take (L + 1)) with
    | some vad =>
      rw [hl] at h
      obtain ⟨h1, h2⟩ := by simpa using h
      exact absurd hle (by omega)
    | none =>
      rw [hl] at h
      rcases Nat.lt_or_ge L3 (L + 1) with h3 | h3
      · exact ih h L3 hlt (Nat.lt_succ_iff.mp h3)
      · have : L3 = L + 1 := le_antisymm hle h3
        rw [this]; exact hl

lemma tryLens_none {lex : Lexicon} {toks : List (List Char)} {i : ℕ} :
    ∀ {L : ℕ}, tryLens lex toks i L = none →
    ∀ L3, 1 ≤ L3 → L3 ≤ L → lookupPhrase lex ((toks.drop i).take L3) = none := by
  intro L
  induction L with
  | zero => intro _ L3 h1 h2; omega
  | succ L ih =>
    intro h L3 h1 h2
    unfold tryLens at h
    cases hl : lookupPhrase lex ((toks.drop i).take (L + 1)) with
    | some vad => rw [hl] at h; simp at h
    | none =>
      rw [hl] at h
      rcases Nat.lt_or_ge L3 (L + 1) with h3 | h3
      · exact ih h L3 h1 (Nat.lt_succ_iff.mp h3)
      · have : L3 = L + 1 := le_antisymm h2 h3
        rw [this]; exact hl

lemma tryLens_isSome_of_lookup {lex : Lexicon} {toks : List (List Char)} {i L0 : ℕ}
    {v0 : VAD} (h0 : 1 ≤ L0) (hl : lookupPhrase lex ((toks.drop i).take L0) = some v0) :
    ∀ {L : ℕ}, L0 ≤ L → ∃ L2 v, tryLens lex toks i L = some (L2, v) ∧ L0 ≤ L2 := by
  intro L
  induction L with
  | zero => intro h; omega
  | succ L ih =>
    intro hle
    unfold tryLens
    cases hq : lookupPhrase lex ((toks.drop i).take (L + 1)) with
    | some vad => exact ⟨L + 1, vad, rfl, hle⟩
    | none =>
      have hne : L0 ≠ L + 1 := by
        intro he; rw [he] at hl; rw [hl] at hq; cases hq
      obtain ⟨L2, v, hv, hge⟩ := ih (by omega)
      exact ⟨L2, v, hv, hge⟩

lemma slice_headI {toks : List (List Char)} {i L : ℕ} (hi : i < toks.length) (hL : 1 ≤ L) :
    ((toks.drop i).take L).headI = toks.getD i [] := by
  rw [List.drop_eq_getElem_cons hi]
  obtain ⟨k, rfl⟩ : ∃ k, L = k + 1 := ⟨L - 1, by omega⟩
  rw [List.take_succ_cons, List.headI_cons, List.getD_eq_getElem toks [] hi]

lemma lookup_firstInIndex {lex : Lexicon} {toks : List (List Char)} {i L0 : ℕ} {v0 : VAD}
    (hi : i < toks.length) (h1 : 1 ≤ L0)
    (hl : lookupPhrase lex ((toks.drop i).take L0) = some v0) :
    firstInIndex lex (toks.getD i []) = true := by
  unfold lookupPhrase at hl
  split at hl
  case isTrue hcond =>
    obtain ⟨e, hfind, hv⟩ := Option.map_eq_some'.mp hl
    have hmem := List.mem_of_find?_eq_some hfind
    have heq : e.phrase = (toks.drop i).take L0 := by simpa using List.find?_some hfind
    unfold firstInIndex
    rw [List.any_eq_true]
    refine ⟨e, hmem, ?_⟩
    have hh : e.phrase.headI = toks.getD i [] := by rw [heq]; exact slice_headI hi h1
    rw [Bool.and_eq_true, Bool.and_eq_true, decide_eq_true_eq, decide_eq_true_eq, beq_iff_eq]
    exact ⟨⟨by rw [heq]; exact hcond.1, by rw [heq]; exact hcond.2⟩, hh⟩
  case isFalse => cases hl

lemma findMatch_some {lex : Lexicon} {toks : List (List Char)} {i L : ℕ} {v : VAD}
    (h : findMatch lex toks i = some (L, v)) :
    1 ≤ L ∧ L ≤ min 4 (toks.length - i) ∧
    lookupPhrase lex ((toks.drop i).take L) = some v ∧
    ∀ L3, L < L3 → L3 ≤ min 4 (toks.length - i) →
      lookupPhrase lex ((toks.drop i).take L3) = none := by
  unfold findMatch at h
  split at h
  · obtain ⟨a, b, c⟩ := tryLens_some_bounds h
    exact ⟨a, b, c, tryLens_some_maximal h⟩
  · cases h

lemma findMatch_isSome_of_lookup {lex : Lexicon} {toks : List (List Char)} {i L0 : ℕ}
    {v0 : VAD} (h1 : 1 ≤ L0) (h4 : L0 ≤ min 4 (toks.length - i))
    (hl : lookupPhrase lex ((toks.drop i).take L0) = some v0) :
    ∃ L v, findMatch lex toks i = some (L, v) ∧ L0 ≤ L := by
  have hmin := Nat.min_le_right 4 (toks.length - i)
  have hi : i < toks.length := by omega
  have hf := lookup_firstInIndex hi h1 hl
  unfold findMatch
  rw [hf]
  simp only [if_true]
  exact tryLens_isSome_of_lookup h1 hl h4

lemma scanFuel_stop {lex : Lexicon} {toks : List (List Char)} {i fuel : ℕ}
    (h : toks.length ≤ i) : scanFuel lex toks i fuel = [] := by
  cases fuel with
  | zero => rfl
  | succ f =>
    unfold scanFuel
    rw [if_neg (by omega)]

lemma scanFuel_congr {lex : Lexicon} {toks : List (List Char)} :
    ∀ (fuel fuel2 i : ℕ), toks.length - i ≤ fuel → toks.length - i ≤ fuel2 →
    scanFuel lex toks i fuel = scanFuel lex toks i fuel2 := by
  intro fuel
  induction fuel with
  | zero =>
    intro fuel2 i h1 _
    rw [scanFuel_stop (by omega), scanFuel_stop (by omega)]
  | succ f ih =>
    intro fuel2 i h1 h2
    by_cases hi : i < toks.length
    · cases fuel2 with
      | zero => omega
      | succ f2 =>
        unfold scanFuel
        rw [if_pos hi, if_pos hi]
        cases hm : findMatch lex toks i with
        | some Lv =>
          obtain ⟨L, v⟩ := Lv
          have hL := (findMatch_some hm).1
          exact congrArg _ (ih f2 (i + L) (by omega) (by omega))
        | none => exact ih f2 (i + 1) (by omega) (by omega)
    · rw [scanFuel_stop (by omega), scanFuel_stop (by omega)]

lemma scanFuel_bounds {lex : Lexicon} {toks : List (List Char)} :
    ∀ (fuel i : ℕ), ∀ m ∈ scanFuel lex toks i fuel,
    i ≤ m.1 ∧ 1 ≤ m.2.1 ∧ m.1 + m.2.1 ≤ toks.length := by
  intro fuel
  induction fuel with
  | zero => intro i m hm; cases hm
  | succ f ih =>
    intro i m hm
    unfold scanFuel at hm
    by_cases hi : i < toks.length
    · rw [if_pos hi] at hm
      cases hq : findMatch lex toks i with
      | some Lv =>
        obtain ⟨L, v⟩ := Lv
        rw [hq] at hm
        rcases List.mem_cons.mp hm with h | h
        · subst h
          obtain ⟨a, b, _, _⟩ := findMatch_some hq
          have hmin := Nat.min_le_right 4 (toks.length - i)
          exact ⟨le_refl _, a, by simp only []; omega⟩
        · obtain ⟨c, d, e⟩ := ih (i + L) m h
          obtain ⟨a, _, _, _⟩ := findMatch_some hq
          exact ⟨by omega, d, e⟩
      | none =>
        rw [hq] at hm
        obtain ⟨c, d, e⟩ := ih (i + 1) m hm
        exact ⟨by omega, d, e⟩
    · rw [if_neg hi] at hm; cases hm

lemma scanFuel_pairwise {lex : Lexicon} {toks : List (List Char)} :
    ∀ (fuel i : ℕ),
    (scanFuel lex toks i fuel).Pairwise (fun m m2 => m.1 + m.2.1 ≤ m2.1) := by
  intro fuel
  induction fuel with
  | zero => intro i; exact List.Pairwise.nil
  | succ f ih =>
    intro i
    unfold scanFuel
    by_cases hi : i < toks.length
    · rw [if_pos hi]
      cases hq : findMatch lex toks i with
      | some Lv =>
        obtain ⟨L, v⟩ := Lv
        refine List.pairwise_cons.mpr ⟨?_, ih (i + L)⟩
        intro m hm
        exact (scanFuel_bounds f (i + L) m hm).1
      | none => exact ih (i + 1)
    · rw [if_neg hi]; exact List.Pairwise.nil

lemma findMatch_none_of_unknown {lex : Lexicon} {toks : List (List Char)} {i : ℕ}
    (h : firstInIndex lex (toks.getD i []) = false) :
    findMatch lex toks i = none := by
  unfold findMatch
  rw [h]
  simp

lemma scanFuel_nil_of_unknown {lex : Lexicon} {toks : List (List Char)}
    (h : ∀ t ∈ toks, firstInIndex lex t = false) :
    ∀ (fuel i : ℕ), scanFuel lex toks i fuel = [] := by
  intro fuel
  induction fuel with
  | zero => intro i; rfl
  | succ f ih =>
    intro i
    unfold scanFuel
    by_cases hi : i < toks.length
    · rw [if_pos hi]
      have hg : toks.getD i [] ∈ toks := by
        rw [List.getD_eq_getElem toks [] hi]
        exact List.getElem_mem hi
      rw [findMatch_none_of_unknown (h _ hg)]
      exact ih (i + 1)
    · rw [if_neg hi]

lemma vad_from_toks_none {lex : Lexicon} {toks : List (List Char)}
    (h : scanMatches lex toks = []) : vad_from_toks lex toks = none := by
  simp [vad_from_toks, h]

/-! ### Branch characterizations of the orchestrator -/

lemma infer_text_blank {lex : Lexicon} {text : List Char} {em : Dist}
    (h : isBlank text = true) :
    infer_text lex text em = ⟨[], DEFAULT_MOOD, none, "default"⟩ := by
  unfold infer_text
  rw [h]
  simp

lemma infer_text_both {lex : Lexicon} {text : List Char} {em : Dist} {vad : VAD}
    (hb : isBlank text = false) (hv : vad_from_text_gitlab lex text = some vad)
    (he : em ≠ []) :
    infer_text lex text em = ⟨em,
      blend_moods (mood_from_emotions em) (music_mood_from_vad vad.1 vad.2.1 vad.2.2) (4/10),
      some vad, "blend(emotions,VAD-gitlab)"⟩ := by
  unfold infer_text
  rw [hb, hv]
  simp [he]

lemma infer_text_vad_only {lex : Lexicon} {text : List Char} {em : Dist} {vad : VAD}
    (hb : isBlank text = false) (hv : vad_from_text_gitlab lex text = some vad)
    (he : em = []) :
    infer_text lex text em = ⟨em, music_mood_from_vad vad.1 vad.2.1 vad.2.2,
      some vad, "VAD-gitlab"⟩ := by
  unfold infer_text
  rw [hb, hv]
  simp [he]

lemma infer_text_classifier_only {lex : Lexicon} {text : List Char} {em : Dist}
    (hb : isBlank text = false) (hv : vad_from_text_gitlab lex text = none)
    (he : em ≠ []) :
    infer_text lex text em = ⟨em, mood_from_emotions em, none, "emotions"⟩ := by
  unfold infer_text
  rw [hb, hv]
  simp [he]

lemma infer_text_neither {lex : Lexicon} {text : List Char} {em : Dist}
    (hb : isBlank text = false) (hv : vad_from_text_gitlab lex text = none)
    (he : em = []) :
    infer_text lex text em = ⟨em, DEFAULT_MOOD, none, "default"⟩ := by
  unfold infer_text
  rw [hb, hv]
  simp [he]

/-! ### Tokenizer lemmas -/

lemma lowerChar_wordChar {c : Char} (h : isWordChar c = true) : lowerChar c = c := by
  have hh : (97 ≤ c.toNat ∧ c.toNat ≤ 122) ∨ c.toNat = 39 := by
    simpa [isWordChar] using h
  unfold lowerChar
  rw [if_neg (by rcases hh with ⟨a, b⟩ | a <;> omega)]

lemma map_lower_id {l : List Char} (h : ∀ c ∈ l, lowerChar c = c) :
    l.map lowerChar = l := by
  induction l with
  | nil => rfl
  | cons a l ih =>
    rw [List.map_cons, h a (List.mem_cons_self a l),
      ih (fun c hc => h c (List.mem_cons_of_mem a hc))]

lemma map_lower_fix {l : List Char} (h : ∀ c ∈ l, isWordChar c = true) :
    l.map lowerChar = l :=
  map_lower_id (fun c hc => lowerChar_wordChar (h c hc))

lemma tokenizeAux_wf : ∀ (l cur : List Char), (∀ c ∈ cur, isWordChar c = true) →
    ∀ t ∈ tokenizeAux l cur, t ≠ [] ∧ ∀ c ∈ t, isWordChar c = true := by
  intro l
  induction l with
  | nil =>
    intro cur hcur t ht
    unfold tokenizeAux at ht
    by_cases hc : cur = []
    · rw [if_pos hc] at ht; cases ht
    · rw [if_neg hc] at ht
      rcases List.mem_singleton.mp ht with rfl
      refine ⟨by simpa using hc, ?_⟩
      intro c hcr
      exact hcur c (List.mem_reverse.mp hcr)
  | cons a l ih =>
    intro cur hcur t ht
    unfold tokenizeAux at ht
    by_cases ha : isWordChar a = true
    · rw [if_pos ha] at ht
      refine ih (a :: cur) ?_ t ht
      intro c hc
      rcases List.mem_cons.mp hc with rfl | hc
      · exact ha
      · exact hcur c hc
    · rw [if_neg ha] at ht
      by_cases hc : cur = []
      · rw [if_pos hc] at ht
        exact ih [] (by intro c h0; cases h0) t ht
      · rw [if_neg hc] at ht
        rcases List.mem_cons.mp ht with rfl | ht2
        · refine ⟨by simpa using hc, ?_⟩
          intro c hcr
          exact hcur c (List.mem_reverse.mp hcr)
        · exact ih [] (by intro c h0; cases h0) t ht2

lemma tokenize_wf (text : List Char) :
    ∀ t ∈ tokenize text, t ≠ [] ∧ ∀ c ∈ t, isWordChar c = true :=
  tokenizeAux_wf _ [] (by intro c h; cases h)

lemma tokenizeAux_append_run : ∀ (t : List Char), (∀ c ∈ t, isWordChar c = true) →
    ∀ (rest cur : List Char), tokenizeAux (t ++ rest) cur = tokenizeAux rest (t.reverse ++ cur) := by
  intro t
  induction t with
  | nil => intro _ rest cur; simp
  | cons a t ih =>
    intro h rest cur
    have ha : isWordChar a = true := h a (List.mem_cons_self a t)
    show tokenizeAux (a :: (t ++ rest)) cur = _
    simp only [tokenizeAux]
    rw [if_pos ha, ih (fun c hc => h c (List.mem_cons_of_mem a hc)) rest (a :: cur)]
    congr 1
    simp

lemma tokenizeAux_space_cons (rest cur : List Char) (h : cur ≠ []) :
    tokenizeAux (' ' :: rest) cur = cur.reverse :: tokenizeAux rest [] := by
  simp only [tokenizeAux]
  rw [if_neg (by decide), if_neg h]

lemma tokenizeAux_join : ∀ (ts : List (List Char)),
    (∀ t ∈ ts, t ≠ [] ∧ ∀ c ∈ t, isWordChar c = true) →
    tokenizeAux (joinTokens ts) [] = ts := by
  intro ts
  induction ts with
  | nil => intro _; rfl
  | cons t ts ih =>
    intro h
    obtain ⟨ht1, ht2⟩ := h t (List.mem_cons_self t ts)
    cases ts with
    | nil =>
      show tokenizeAux (joinTokens [t]) [] = [t]
      have hrun := tokenizeAux_append_run t ht2 [] []
      rw [List.append_nil] at hrun
      rw [show joinTokens [t] = t from rfl, hrun]
      simp [tokenizeAux, ht1]
    | cons t2 ts2 =>
      show tokenizeAux (t ++ ' ' :: joinTokens (t2 :: ts2)) [] = t :: t2 :: ts2
      rw [tokenizeAux_append_run t ht2, List.append_nil,
        tokenizeAux_space_cons _ _ (by simpa using ht1), List.reverse_reverse]
      exact congrArg _ (ih (fun u hu => h u (List.mem_cons_of_mem t hu)))

lemma join_wordChar_or_space {ts : List (List Char)}
    (h : ∀ t ∈ ts, ∀ c ∈ t, isWordChar c = true) :
    ∀ c ∈ joinTokens ts, isWordChar c = true ∨ c = ' ' := by
  induction ts with
  | nil => intro c hc; cases hc
  | cons t ts ih =>
    intro c hc
    cases ts with
    | nil => exact Or.inl (h t (List.mem_cons_self t []) c hc)
    | cons t2 ts2 =>
      rw [show joinTokens (t :: t2 :: ts2) = t ++ ' ' :: joinTokens (t2 :: ts2) from rfl] at hc
      rcases List.mem_append.mp hc with hc | hc
      · exact Or.inl (h t (List.mem_cons_self t _) c hc)
      · rcases List.mem_cons.mp hc with rfl | hc
        · exact Or.inr rfl
        · exact ih (fun u hu => h u (List.mem_cons_of_mem t hu)) c hc

lemma map_lower_join {ts : List (List Char)}
    (h : ∀ t ∈ ts, ∀ c ∈ t, isWordChar c = true) :
    (joinTokens ts).map lowerChar = joinTokens ts := by
  refine map_lower_id ?_
  intro c hc
  rcases join_wordChar_or_space h c hc with hw | rfl
  · exact lowerChar_wordChar hw
  · rfl

/-- Alternate concatenation `s0 ++ t1 ++ s1 ++ t2 ++ ... ++ tn ++ sn` of
separators and tokens, used to state that the tokens are the maximal
`[a-z']` runs of the input: the surrounding separators hold every
discarded character and contain no word characters. -/
def altConcat : List (List Char) → List (List Char) → List Char
  | [], _ => []
  | s :: _, [] => s
  | s :: seps, t :: toks => s ++ t ++ altConcat seps toks

lemma decomp_aux : ∀ (l cur : List Char),
    ∃ seps : List (List Char), seps.length = (tokenizeAux l cur).length + 1 ∧
      (∀ s ∈ seps, ∀ c ∈ s, isWordChar c = false) ∧
      cur.reverse ++ l = altConcat seps (tokenizeAux l cur) ∧
      (cur ≠ [] → seps.headI = []) := by
  intro l
  induction l with
  | nil =>
    intro cur
    by_cases hc : cur = []
    · subst hc
      refine ⟨[[]], by simp [tokenizeAux], ?_, by simp [tokenizeAux, altConcat], by simp⟩
      intro s hs c hcc
      rw [List.mem_singleton.mp hs] at hcc
      cases hcc
    · refine ⟨[[], []], by simp [tokenizeAux, hc], ?_, ?_, fun _ => rfl⟩
      · intro s hs c hcc
        rcases List.mem_cons.mp hs with rfl | hs
        · cases hcc
        · rw [List.mem_singleton.mp hs] at hcc; cases hcc
      · simp [tokenizeAux, hc, altConcat]
  | cons a l ih =>
    intro cur
    by_cases ha : isWordChar a = true
    · have he : tokenizeAux (a :: l) cur = tokenizeAux l (a :: cur) := by
        simp [tokenizeAux, ha]
      obtain ⟨seps, h1, h2, h3, h4⟩ := ih (a :: cur)
      refine ⟨seps, by rw [he]; exact h1, h2, ?_, ?_⟩
      · rw [he, ← h3]; simp
      · intro _; exact h4 (List.cons_ne_nil a cur)
    · have he : tokenizeAux (a :: l) cur =
          if cur = [] then tokenizeAux l [] else cur.reverse :: tokenizeAux l [] := by
        simp [tokenizeAux, ha]
      obtain ⟨seps, h1, h2, h3, _⟩ := ih []
      obtain ⟨s0, stail, rfl⟩ : ∃ s0 stail, seps = s0 :: stail := by
        cases seps with
        | nil => simp at h1
        | cons s0 stail => exact ⟨s0, stail, rfl⟩
      have halt : ∀ toks, altConcat ((a :: s0) :: stail) toks =
          a :: altConcat (s0 :: stail) toks := by
        intro toks
        cases toks with
        | nil => rfl
        | cons t ts => rfl
      have hmem : ∀ s ∈ (a :: s0) :: stail, ∀ c ∈ s, isWordChar c = false := by
        intro s hs c hcc
        rcases List.mem_cons.mp hs with rfl | hs
        · rcases List.mem_cons.mp hcc with rfl | hcc
          · exact Bool.eq_false_iff.mpr ha
          · exact h2 s0 (List.mem_cons_self _ _) c hcc
        · exact h2 s (List.mem_cons_of_mem _ hs) c hcc
      by_cases hc : cur = []
      · subst hc
        refine ⟨(a :: s0) :: stail, ?_, hmem, ?_, ?_⟩
        · rw [he, if_pos rfl]; simpa using h1
        · rw [he, if_pos rfl, halt, ← h3]; simp
        · intro h0; exact absurd rfl h0
      · refine ⟨[] :: (a :: s0) :: stail, ?_, ?_, ?_, fun _ => rfl⟩
        · rw [he, if_neg hc]
          simp only [List.length_cons] at h1 ⊢
          omega
        · intro s hs c hcc
          rcases List.mem_cons.mp hs with rfl | hs
          · cases hcc
          · exact hmem s hs c hcc
        · rw [he, if_neg hc]
          show cur.reverse ++ (a :: l) =
            [] ++ (cur.reverse ++ altConcat ((a :: s0) :: stail) (tokenizeAux l []))
          rw [halt, ← h3]
          simp

lemma tokenize_decomp (text : List Char) :
    ∃ seps : List (List Char), seps.length = (tokenize text).length + 1 ∧
      (∀ s ∈ seps, ∀ c ∈ s, isWordChar c = false) ∧
      text.map lowerChar = altConcat seps (tokenize text) := by
  obtain ⟨seps, h1, h2, h3, _⟩ := decomp_aux (text.map lowerChar) []
  exact ⟨seps, h1, h2, by simpa using h3⟩

lemma tokenize_join_tokenize (text : List Char) :
    tokenize (joinTokens (tokenize text)) = tokenize text := by
  have hwf := tokenize_wf text
  show tokenizeAux ((joinTokens (tokenize text)).map lowerChar) [] = tokenize text
  rw [map_lower_join (fun t ht => (hwf t ht).2)]
  exact tokenizeAux_join _ hwf

/-! ### Range invariants of the mood space -/

/-- Every dimension of the mood vector lies in [0,1]. -/
def MoodIn01 (m : Mood) : Prop :=
  (0 ≤ m.valence ∧ m.valence ≤ 1) ∧ (0 ≤ m.energy ∧ m.energy ≤ 1) ∧
  (0 ≤ m.focus ∧ m.focus ≤ 1) ∧ (0 ≤ m.danceability ∧ m.danceability ≤ 1) ∧
  (0 ≤ m.tempo_pref ∧ m.tempo_pref ≤ 1)

lemma default_mood_in01 : MoodIn01 DEFAULT_MOOD := by
  norm_num [MoodIn01, DEFAULT_MOOD]

lemma lookupEmotion_in01 {l : String} {m : Mood} (h : lookupEmotion l = some m) :
    MoodIn01 m := by
  unfold lookupEmotion at h
  obtain ⟨e, hfind, he⟩ := Option.map_eq_some'.mp h
  have hmem := List.mem_of_find?_eq_some hfind
  subst he
  fin_cases hmem <;> norm_num [MoodIn01, EMOTION_TO_MOOD]

lemma aggDim_bounds {em : Dist} {f : Mood → ℚ}
    (hf : ∀ l m, lookupEmotion l = some m → 0 ≤ f m ∧ f m ≤ 1)
    (hp : ∀ p ∈ em, 0 ≤ p.2) :
    0 ≤ aggDim em f ∧ aggDim em f ≤ (em.map (fun le => le.2)).sum := by
  induction em with
  | nil => simp [aggDim]
  | cons a em ih =>
    have ha : 0 ≤ a.2 := hp a (List.mem_cons_self a em)
    obtain ⟨ih1, ih2⟩ := ih (fun p hpm => hp p (List.mem_cons_of_mem a hpm))
    unfold aggDim at ih1 ih2 ⊢
    rw [List.map_cons, List.sum_cons, List.map_cons, List.sum_cons]
    cases hl : lookupEmotion a.1 with
    | some mp =>
      obtain ⟨f0, f1⟩ := hf a.1 mp hl
      have hm0 : 0 ≤ a.2 * f mp := mul_nonneg ha f0
      have hm1 : a.2 * f mp ≤ a.2 * 1 := mul_le_mul_of_nonneg_left f1 ha
      simp only [Option.map_some', Option.getD_some]
      constructor <;> nlinarith
    | none =>
      simp only [Option.map_none', Option.getD_none]
      constructor <;> linarith

lemma ratio_bound {em : Dist} {f : Mood → ℚ}
    (hf : ∀ l m, lookupEmotion l = some m → 0 ≤ f m ∧ f m ≤ 1)
    (hp : ∀ p ∈ em, 0 ≤ p.2) :
    0 ≤ aggDim em f /
        (if (em.map (fun le => le.2)).sum = 0 then 1 else (em.map (fun le => le.2)).sum) ∧
      aggDim em f /
        (if (em.map (fun le => le.2)).sum = 0 then 1 else (em.map (fun le => le.2)).sum) ≤ 1 := by
  obtain ⟨h0, h1⟩ := aggDim_bounds hf hp
  have hS0 : 0 ≤ (em.map (fun le => le.2)).sum := by
    apply List.sum_nonneg
    intro x hx
    obtain ⟨p, hpm, rfl⟩ := List.mem_map.mp hx
    exact hp p hpm
  by_cases hz : (em.map (fun le => le.2)).sum = 0
  · rw [if_pos hz]
    rw [hz] at h1
    have hzero : aggDim em f = 0 := le_antisymm h1 h0
    rw [hzero]
    norm_num
  · rw [if_neg hz]
    have hpos : 0 < (em.map (fun le => le.2)).sum := lt_of_le_of_ne hS0 (Ne.symm hz)
    exact ⟨div_nonneg h0 hS0, (div_le_one hpos).mpr h1⟩

lemma mood_from_emotions_in01 {em : Dist} (hp : ∀ p ∈ em, 0 ≤ p.2) :
    MoodIn01 (mood_from_emotions em) := by
  unfold mood_from_emotions
  by_cases he : em = []
  · rw [if_pos he]; exact default_mood_in01
  · rw [if_neg he]
    have hv := ratio_bound (f := fun m => m.valence)
      (fun l m h => ⟨(lookupEmotion_in01 h).1.1, (lookupEmotion_in01 h).1.2⟩) hp
    have hen := ratio_bound (f := fun m => m.energy)
      (fun l m h => ⟨(lookupEmotion_in01 h).2.1.1, (lookupEmotion_in01 h).2.1.2⟩) hp
    have hf := ratio_bound (f := fun m => m.focus)
      (fun l m h => ⟨(lookupEmotion_in01 h).2.2.1.1, (lookupEmotion_in01 h).2.2.1.2⟩) hp
    have hd := ratio_bound (f := fun m => m.danceability)
      (fun l m h => ⟨(lookupEmotion_in01 h).2.2.2.1.1, (lookupEmotion_in01 h).2.2.2.1.2⟩) hp
    have ht := ratio_bound (f := fun m => m.tempo_pref)
      (fun l m h => ⟨(lookupEmotion_in01 h).2.2.2.2.1, (lookupEmotion_in01 h).2.2.2.2.2⟩) hp
    exact ⟨⟨round4_nonneg hv.1, round4_le_one hv.2⟩,
      ⟨round4_nonneg hen.1, round4_le_one hen.2⟩,
      ⟨round4_nonneg hf.1, round4_le_one hf.2⟩,
      ⟨round4_nonneg hd.1, round4_le_one hd.2⟩,
      ⟨round4_nonneg ht.1, round4_le_one ht.2⟩⟩

lemma music_mood_in01 {v a d : ℚ} (hv : 0 ≤ v ∧ v ≤ 1) (ha : 0 ≤ a ∧ a ≤ 1) :
    MoodIn01 (music_mood_from_vad v a d) :=
  ⟨⟨round4_nonneg hv.1, round4_le_one hv.2⟩,
    ⟨round4_nonneg ha.1, round4_le_one ha.2⟩,
    ⟨round4_nonneg (clamp01_nonneg _), round4_le_one (clamp01_le_one _)⟩,
    ⟨round4_nonneg (clamp01_nonneg _), round4_le_one (clamp01_le_one _)⟩,
    ⟨round4_nonneg ha.1, round4_le_one ha.2⟩⟩

lemma convex_unit {x y w : ℚ} (hx : 0 ≤ x ∧ x ≤ 1) (hy : 0 ≤ y ∧ y ≤ 1)
    (hw : 0 ≤ w ∧ w ≤ 1) : 0 ≤ x * w + y * (1 - w) ∧ x * w + y * (1 - w) ≤ 1 := by
  constructor
  · have g1 := mul_nonneg hx.1 hw.1
    have g2 := mul_nonneg hy.1 (by linarith : (0:ℚ) ≤ 1 - w)
    linarith
  · have g1 : x * w ≤ 1 * w := mul_le_mul_of_nonneg_right hx.2 hw.1
    have g2 : y * (1 - w) ≤ 1 * (1 - w) := mul_le_mul_of_nonneg_right hy.2 (by linarith)
    linarith

lemma blend_in01 {a b : Mood} {wa : ℚ} (ha : MoodIn01 a) (hb : MoodIn01 b)
    (hw : 0 ≤ wa ∧ wa ≤ 1) : MoodIn01 (blend_moods a b wa) :=
  ⟨⟨round4_nonneg (convex_unit ha.1 hb.1 hw).1, round4_le_one (convex_unit ha.1 hb.1 hw).2⟩,
    ⟨round4_nonneg (convex_unit ha.2.1 hb.2.1 hw).1,
      round4_le_one (convex_unit ha.2.1 hb.2.1 hw).2⟩,
    ⟨round4_nonneg (convex_unit ha.2.2.1 hb.2.2.1 hw).1,
      round4_le_one (convex_unit ha.2.2.1 hb.2.2.1 hw).2⟩,
    ⟨round4_nonneg (convex_unit ha.2.2.2.1 hb.2.2.2.1 hw).1,
      round4_le_one (convex_unit ha.2.2.2.1 hb.2.2.2.1 hw).2⟩,
    ⟨round4_nonneg (convex_unit ha.2.2.2.2 hb.2.2.2.2 hw).1,
      round4_le_one (convex_unit ha.2.2.2.2 hb.2.2.2.2 hw).2⟩⟩

/-! ### Concrete fixtures from the spec's testable properties -/

/-- Apostrophe character (code point 39). -/
def apos : Char := Char.ofNat 39

/-- The tokenizer example input from the spec, `I'm Happy!!`. -/
def exampleText : List Char := ['I', apos, 'm', ' ', 'H', 'a', 'p', 'p', 'y', '!', '!']

/-- Lexicon for the weighted-aggregation example: one 1-gram with VAD
(0.2,0.2,0.2), another with (0.8,0.8,0.8). -/
def lexWeighted : Lexicon :=
  [⟨[['b','a','d']], (1/5, 1/5, 1/5)⟩, ⟨[['j','o','y','f','u','l']], (4/5, 4/5, 4/5)⟩]

/-- Input whose scan matches the first phrase twice and the second once. -/
def textWeighted : List Char := "bad bad joyful".data

/-- Lexicon with both a 2-gram and its 1-gram suffix (not good / good). -/
def lexNotGood : Lexicon :=
  [⟨[['n','o','t'], ['g','o','o','d']], (1/10, 1/10, 1/10)⟩,
   ⟨[['g','o','o','d']], (9/10, 9/10, 9/10)⟩]

def textNotGood : List Char := "this is not good today".data

/-- One-entry lexicon used for single-match scenarios. -/
def lexGood : Lexicon := [⟨[['g','o','o','d']], (9/10, 9/10, 9/10)⟩]

def textGood : List Char := "good".data

/-- Text containing only words unknown to any of the fixture lexicons. -/
def textUnknown : List Char := "zzz qqq".data

/-! ### Concrete evaluations -/

lemma vad_weighted_eval :
    vad_from_text_gitlab lexWeighted textWeighted = some (8/25, 8/25, 8/25) := by
  show vad_from_toks lexWeighted [['b','a','d'], ['b','a','d'], ['j','o','y','f','u','l']] = _
  have hs : scanMatches lexWeighted [['b','a','d'], ['b','a','d'], ['j','o','y','f','u','l']]
      = [(0, 1, ((1:ℚ)/5, (1:ℚ)/5, (1:ℚ)/5)), (1, 1, ((1:ℚ)/5, (1:ℚ)/5, (1:ℚ)/5)),
         (2, 1, ((4:ℚ)/5, (4:ℚ)/5, (4:ℚ)/5))] := rfl
  have h0 : matchCount [['b','a','d'], ['b','a','d'], ['j','o','y','f','u','l']]
      [(0, 1, ((1:ℚ)/5, (1:ℚ)/5, (1:ℚ)/5)), (1, 1, ((1:ℚ)/5, (1:ℚ)/5, (1:ℚ)/5)),
       (2, 1, ((4:ℚ)/5, (4:ℚ)/5, (4:ℚ)/5))] (0, 1, ((1:ℚ)/5, (1:ℚ)/5, (1:ℚ)/5)) = 2 := rfl
  have h1 : matchCount [['b','a','d'], ['b','a','d'], ['j','o','y','f','u','l']]
      [(0, 1, ((1:ℚ)/5, (1:ℚ)/5, (1:ℚ)/5)), (1, 1, ((1:ℚ)/5, (1:ℚ)/5, (1:ℚ)/5)),
       (2, 1, ((4:ℚ)/5, (4:ℚ)/5, (4:ℚ)/5))] (1, 1, ((1:ℚ)/5, (1:ℚ)/5, (1:ℚ)/5)) = 2 := rfl
  have h2 : matchCount [['b','a','d'], ['b','a','d'], ['j','o','y','f','u','l']]
      [(0, 1, ((1:ℚ)/5, (1:ℚ)/5, (1:ℚ)/5)), (1, 1, ((1:ℚ)/5, (1:ℚ)/5, (1:ℚ)/5)),
       (2, 1, ((4:ℚ)/5, (4:ℚ)/5, (4:ℚ)/5))] (2, 1, ((4:ℚ)/5, (4:ℚ)/5, (4:ℚ)/5)) = 1 := rfl
  unfold vad_from_toks
  rw [hs]
  simp only [List.map_cons, List.map_nil, List.sum_cons, List.sum_nil, h0, h1, h2]
  norm_num [round4, round_eq]
  exact fun h => absurd h (List.cons_ne_nil _ _)

lemma vad_good_eval :
    vad_from_text_gitlab lexGood textGood = some (9/10, 9/10, 9/10) := by
  show vad_from_toks lexGood [['g','o','o','d']] = _
  have hs : scanMatches lexGood [['g','o','o','d']]
      = [(0, 1, ((9:ℚ)/10, (9:ℚ)/10, (9:ℚ)/10))] := rfl
  have h0 : matchCount [['g','o','o','d']] [(0, 1, ((9:ℚ)/10, (9:ℚ)/10, (9:ℚ)/10))]
      (0, 1, ((9:ℚ)/10, (9:ℚ)/10, (9:ℚ)/10)) = 1 := rfl
  unfold vad_from_toks
  rw [hs]
  simp only [List.map_cons, List.map_nil, List.sum_cons, List.sum_nil, h0]
  norm_num [round4, round_eq]

lemma mood_joy_eval : mood_from_emotions [("joy", 1)] = ⟨9/10, 7/10, 2/5, 7/10, 3/4⟩ := by
  have hj : lookupEmotion "joy" = some ⟨9/10, 7/10, 4/10, 7/10, 3/4⟩ := rfl
  unfold mood_from_emotions aggDim
  rw [if_neg (List.cons_ne_nil _ _)]
  simp only [List.map_cons, List.map_nil, List.sum_cons, List.sum_nil, hj,
    Option.map_some', Option.getD_some]
  norm_num [round4, round_eq, Mood.mk.injEq]

lemma mood_joy_half_eval :
    mood_from_emotions [("joy", 1/2), ("unknown_label", 1/2)]
      = ⟨9/20, 7/20, 1/5, 7/20, 3/8⟩ := by
  have hj : lookupEmotion "joy" = some ⟨9/10, 7/10, 4/10, 7/10, 3/4⟩ := rfl
  have hu : lookupEmotion "unknown_label" = none := rfl
  unfold mood_from_emotions aggDim
  rw [if_neg (List.cons_ne_nil _ _)]
  simp only [List.map_cons, List.map_nil, List.sum_cons, List.sum_nil, hj, hu,
    Option.map_some', Option.map_none', Option.getD_some, Option.getD_none]
  norm_num [round4, round_eq, Mood.mk.injEq]

lemma mood_joy_zero_eval : mood_from_emotions [("joy", 0)] = ⟨0, 0, 0, 0, 0⟩ := by
  have hj : lookupEmotion "joy" = some ⟨9/10, 7/10, 4/10, 7/10, 3/4⟩ := rfl
  unfold mood_from_emotions aggDim
  rw [if_neg (List.cons_ne_nil _ _)]
  simp only [List.map_cons, List.map_nil, List.sum_cons, List.sum_nil, hj,
    Option.map_some', Option.getD_some]
  norm_num [round4, round_eq, Mood.mk.injEq]

/-! ## Claims -/

/-- C1: the spec claims the aggregated VAD triple is the match-count-weighted
mean `sum(value_i * count_i) / sum(count_i)` over distinct matched phrases,
with the worked example (0.2 twice, 0.8 once) aggregating to 0.4 per
component.  The code iterates over per-occurrence matches and additionally
multiplies by the count, weighting each distinct phrase by its count
squared: on that very example it returns 0.32 per component, not 0.4. -/
theorem C1_weighted_aggregation_bug :
    vad_from_text_gitlab lexWeighted textWeighted = some (8/25, 8/25, 8/25) ∧
    ((1:ℚ)/5 * 2 + 4/5 * 1) / 3 = 2/5 ∧ (8/25 : ℚ) ≠ 2/5 :=
  ⟨vad_weighted_eval, by norm_num, by norm_num⟩

/-- C2 (amended): the source label is exactly one of "default",
"VAD-gitlab", "emotions", "blend(emotions,VAD-gitlab)" — not the spec's
"lexicon"/"classifier"/"blend" — chosen by the stated presence policy
(blank text short-circuits to "default"). -/
theorem C2_source_policy (lex : Lexicon) (text : List Char) (em : Dist) :
    ((infer_text lex text em).source =
      if isBlank text then "default"
      else match vad_from_text_gitlab lex text, em with
        | some _, _ :: _ => "blend(emotions,VAD-gitlab)"
        | some _, [] => "VAD-gitlab"
        | none, _ :: _ => "emotions"
        | none, [] => "default") ∧
    (infer_text lex text em).source ∈
      (["default", "VAD-gitlab", "emotions", "blend(emotions,VAD-gitlab)"] : List String) := by
  cases hb : isBlank text with
  | true => rw [infer_text_blank hb]; exact ⟨by simp, by simp⟩
  | false =>
    cases hv : vad_from_text_gitlab lex text with
    | some vad =>
      cases em with
      | nil => rw [infer_text_vad_only hb hv rfl]; exact ⟨by simp, by simp⟩
      | cons e em2 =>
        rw [infer_text_both hb hv (List.cons_ne_nil e em2)]
        exact ⟨by simp, by simp⟩
    | none =>
      cases em with
      | nil => rw [infer_text_neither hb hv rfl]; exact ⟨by simp, by simp⟩
      | cons e em2 =>
        rw [infer_text_classifier_only hb hv (List.cons_ne_nil e em2)]
        exact ⟨by simp, by simp⟩

/-- C2 counterexample: on input "good" with a lexicon entry for "good" and
no classifier distribution, the code's source label is "VAD-gitlab", which
is not in the spec's claimed label set. -/
theorem C2_source_label_counterexample :
    (infer_text lexGood textGood []).source = "VAD-gitlab" ∧
    "VAD-gitlab" ∉ (["default", "lexicon", "classifier", "blend"] : List String) := by
  refine ⟨?_, by decide⟩
  rw [infer_text_vad_only (show isBlank textGood = false from rfl) vad_good_eval rfl]

/-- C3 (amended): the empty distribution keeps the all-0.5 default mood
unchanged, but a nonempty distribution of nonnegative probabilities summing
to zero produces the all-0.0 vector (the `or 1.0` guard divides the zero
numerators by 1), not the default. -/
theorem C3_zero_sum_mood (em : Dist) (hne : em ≠ []) (hp : ∀ p ∈ em, 0 ≤ p.2)
    (hz : (em.map (fun le => le.2)).sum = 0) :
    mood_from_emotions [] = DEFAULT_MOOD ∧ mood_from_emotions em = ⟨0, 0, 0, 0, 0⟩ := by
  refine ⟨rfl, ?_⟩
  have hagg : ∀ f : Mood → ℚ, (∀ l m, lookupEmotion l = some m → 0 ≤ f m ∧ f m ≤ 1) →
      aggDim em f = 0 := by
    intro f hf
    obtain ⟨h0, h1⟩ := aggDim_bounds hf hp
    rw [hz] at h1
    exact le_antisymm h1 h0
  unfold mood_from_emotions
  rw [if_neg hne, hz,
    hagg (fun m => m.valence)
      (fun l m h => ⟨(lookupEmotion_in01 h).1.1, (lookupEmotion_in01 h).1.2⟩),
    hagg (fun m => m.energy)
      (fun l m h => ⟨(lookupEmotion_in01 h).2.1.1, (lookupEmotion_in01 h).2.1.2⟩),
    hagg (fun m => m.focus)
      (fun l m h => ⟨(lookupEmotion_in01 h).2.2.1.1, (lookupEmotion_in01 h).2.2.1.2⟩),
    hagg (fun m => m.danceability)
      (fun l m h => ⟨(lookupEmotion_in01 h).2.2.2.1.1, (lookupEmotion_in01 h).2.2.2.1.2⟩),
    hagg (fun m => m.tempo_pref)
      (fun l m h => ⟨(lookupEmotion_in01 h).2.2.2.2.1, (lookupEmotion_in01 h).2.2.2.2.2⟩)]
  norm_num [round4, round_eq, Mood.mk.injEq]

/-- C3 witness: the amended statement instantiated at the distribution
`{"joy": 0.0}`. -/
theorem C3_zero_sum_mood_witness :
    mood_from_emotions [] = DEFAULT_MOOD ∧
    mood_from_emotions [("joy", 0)] = ⟨0, 0, 0, 0, 0⟩ :=
  C3_zero_sum_mood [("joy", 0)] (List.cons_ne_nil _ _) (by norm_num) (by norm_num)

/-- C3 counterexample: `{"joy": 0.0}` is nonempty, sums to zero, and the
projection returns the all-0.0 vector, not the all-0.5 default. -/
theorem C3_default_counterexample :
    (([("joy", (0:ℚ))] : Dist).map (fun le => le.2)).sum = 0 ∧
    mood_from_emotions [("joy", 0)] = ⟨0, 0, 0, 0, 0⟩ ∧
    mood_from_emotions [("joy", 0)] ≠ DEFAULT_MOOD := by
  refine ⟨by norm_num, mood_joy_zero_eval, ?_⟩
  rw [mood_joy_zero_eval]
  norm_num [DEFAULT_MOOD, Mood.mk.injEq]

/-- C4: when both paths are present the final mood is the per-dimension
blend `round4(classifier * 0.4 + lexical * 0.6)`, and lexical all-1 with
classifier all-0 blends to 0.6 per dimension. -/
theorem C4_blend_formula (lex : Lexicon) (text : List Char) (em : Dist) (vad : VAD)
    (hb : isBlank text = false) (hv : vad_from_text_gitlab lex text = some vad)
    (he : em ≠ []) :
    (infer_text lex text em).mood =
      blend_moods (mood_from_emotions em)
        (music_mood_from_vad vad.1 vad.2.1 vad.2.2) (4/10) ∧
    (∀ a b : Mood, blend_moods a b (4/10) =
      ⟨round4 (a.valence * (4/10) + b.valence * (6/10)),
       round4 (a.energy * (4/10) + b.energy * (6/10)),
       round4 (a.focus * (4/10) + b.focus * (6/10)),
       round4 (a.danceability * (4/10) + b.danceability * (6/10)),
       round4 (a.tempo_pref * (4/10) + b.tempo_pref * (6/10))⟩) ∧
    blend_moods ⟨0, 0, 0, 0, 0⟩ ⟨1, 1, 1, 1, 1⟩ (4/10) = ⟨3/5, 3/5, 3/5, 3/5, 3/5⟩ := by
  refine ⟨by rw [infer_text_both hb hv he], ?_, ?_⟩
  · intro a b
    unfold blend_moods
    norm_num
  · norm_num [blend_moods, round4, round_eq, Mood.mk.injEq]

/-- C4 witness: instantiated on "good" with lexicon VAD (0.9,0.9,0.9) and
distribution `{"joy": 1.0}`. -/
theorem C4_blend_formula_witness :
    (infer_text lexGood textGood [("joy", 1)]).mood =
      blend_moods (mood_from_emotions [("joy", 1)])
        (music_mood_from_vad (9/10) (9/10) (9/10)) (4/10) :=
  (C4_blend_formula lexGood textGood [("joy", 1)] (9/10, 9/10, 9/10) rfl vad_good_eval
    (List.cons_ne_nil _ _)).1

/-- C5: at each position, a recorded match is the longest lexicon phrase of
length at most `min(4, tokens remaining)`; if any phrase matches there, one
is recorded; the scan advances by exactly the matched length (so no shorter
phrase is recorded at the same position); and on the spec's example the
2-gram "not good" is recorded at position 2 and the 1-gram "good" is not
recorded at all. -/
theorem C5_longest_match (lex : Lexicon) (toks : List (List Char)) (i : ℕ) :
    (∀ L v, findMatch lex toks i = some (L, v) →
      1 ≤ L ∧ L ≤ min 4 (toks.length - i) ∧
      lookupPhrase lex ((toks.drop i).take L) = some v ∧
      ∀ L3, L < L3 → L3 ≤ min 4 (toks.length - i) →
        lookupPhrase lex ((toks.drop i).take L3) = none) ∧
    (∀ L0 v0, 1 ≤ L0 → L0 ≤ min 4 (toks.length - i) →
      lookupPhrase lex ((toks.drop i).take L0) = some v0 →
      ∃ L v, findMatch lex toks i = some (L, v) ∧ L0 ≤ L) ∧
    (∀ fuel L v, i < toks.length → findMatch lex toks i = some (L, v) →
      scanFuel lex toks i (fuel + 1) = (i, L, v) :: scanFuel lex toks (i + L) fuel) ∧
    scanMatches lexNotGood (tokenize textNotGood) = [(2, 2, (1/10, 1/10, 1/10))] := by
  refine ⟨?_, ?_, ?_, rfl⟩
  · intro L v h
    exact findMatch_some h
  · intro L0 v0 h1 h4 hl
    exact findMatch_isSome_of_lookup h1 h4 hl
  · intro fuel L v hi hm
    rw [scanFuel, if_pos hi, hm]

/-- C5 witness: at position 2 of the tokenized example the recorded match
is the 2-gram, within bounds, found in the index. -/
theorem C5_longest_match_witness :
    1 ≤ 2 ∧ 2 ≤ min 4 ((tokenize textNotGood).length - 2) ∧
    lookupPhrase lexNotGood (((tokenize textNotGood).drop 2).take 2)
      = some (1/10, 1/10, 1/10) :=
  have h := (C5_longest_match lexNotGood (tokenize textNotGood) 2).1 2
    (1/10, 1/10, 1/10) rfl
  ⟨h.1, h.2.1, h.2.2.1⟩

/-- C6: a scan with zero matches yields the absent VAD signal (`None`), the
inference result's vad field is null, and text whose tokens all lack index
entries produces exactly this outcome. -/
theorem C6_no_match_absent (lex : Lexicon) (text : List Char) (em : Dist) :
    (scanMatches lex (tokenize text) = [] →
      vad_from_text_gitlab lex text = none ∧ (infer_text lex text em).vad = none) ∧
    ((∀ t ∈ tokenize text, firstInIndex lex t = false) →
      vad_from_text_gitlab lex text = none) := by
  constructor
  · intro h
    have hv : vad_from_text_gitlab lex text = none := vad_from_toks_none h
    refine ⟨hv, ?_⟩
    cases hb : isBlank text with
    | true => rw [infer_text_blank hb]
    | false =>
      cases em with
      | nil => rw [infer_text_neither hb hv rfl]
      | cons e em2 => rw [infer_text_classifier_only hb hv (List.cons_ne_nil e em2)]
  · intro h
    exact vad_from_toks_none
      (show scanMatches lex (tokenize text) = [] from
        scanFuel_nil_of_unknown h (tokenize text).length 0)

/-- C6 witness: "zzz qqq" contains only unknown words; the VAD signal is
absent and the result's vad field is null even with a classifier
distribution present. -/
theorem C6_no_match_absent_witness :
    vad_from_text_gitlab lexGood textUnknown = none ∧
    (infer_text lexGood textUnknown [("joy", 1)]).vad = none :=
  (C6_no_match_absent lexGood textUnknown [("joy", 1)]).1 rfl

/-- C7: every token is nonempty, drawn from the character class `[a-z']`,
fixed by lowercasing; the tokens are the maximal runs of the lowercased
input (it decomposes into alternating word-character-free separators and
the tokens); re-tokenizing the space-joined output is the identity; and
`tokenize("I'm Happy!!") = ["i'm", "happy"]`. -/
theorem C7_tokenizer (text : List Char) :
    (∀ t ∈ tokenize text,
      t ≠ [] ∧ (∀ c ∈ t, isWordChar c = true) ∧ (∀ c ∈ t, lowerChar c = c)) ∧
    (∃ seps : List (List Char), seps.length = (tokenize text).length + 1 ∧
      (∀ s ∈ seps, ∀ c ∈ s, isWordChar c = false) ∧
      text.map lowerChar = altConcat seps (tokenize text)) ∧
    tokenize (joinTokens (tokenize text)) = tokenize text ∧
    tokenize exampleText = [['i', apos, 'm'], ['h', 'a', 'p', 'p', 'y']] := by
  refine ⟨?_, tokenize_decomp text, tokenize_join_tokenize text, rfl⟩
  intro t ht
  obtain ⟨h1, h2⟩ := tokenize_wf text t ht
  exact ⟨h1, h2, fun c hc => lowerChar_wordChar (h2 c hc)⟩

/-- C7 witness: the token "happy" of the example input is nonempty and in
the character class. -/
theorem C7_tokenizer_witness :
    (['h', 'a', 'p', 'p', 'y'] : List Char) ≠ [] ∧
    ∀ c ∈ (['h', 'a', 'p', 'p', 'y'] : List Char), isWordChar c = true :=
  have h := (C7_tokenizer exampleText).1 ['h', 'a', 'p', 'p', 'y'] (by decide)
  ⟨h.1, h.2.1⟩

/-- C8: for `{"joy": 0.5, "unknown_label": 0.5}` every mood dimension is
exactly half of the value for `{"joy": 1.0}`: the unknown label inflates
the denominator but adds nothing to the numerators. -/
theorem C8_dilution :
    mood_from_emotions [("joy", 1)] = ⟨9/10, 7/10, 2/5, 7/10, 3/4⟩ ∧
    mood_from_emotions [("joy", 1/2), ("unknown_label", 1/2)] =
      ⟨(9/10)/2, (7/10)/2, (2/5)/2, (7/10)/2, (3/4)/2⟩ := by
  refine ⟨mood_joy_eval, ?_⟩
  rw [mood_joy_half_eval]
  norm_num [Mood.mk.injEq]

/-- C9: every produced mood vector has exactly the five dimensions (they
are structure fields, hence always present) with all values in [0,1]: the
VAD projection on inputs in [0,1], the emotion projection on probabilities
in [0,1], any blend of two in-range vectors with weight in [0,1], and the
default vector. -/
theorem C9_mood_range (v a d wa : ℚ) (em : Dist) (m1 m2 : Mood)
    (hv : 0 ≤ v ∧ v ≤ 1) (ha : 0 ≤ a ∧ a ≤ 1) (_hd : 0 ≤ d ∧ d ≤ 1)
    (hp : ∀ p ∈ em, 0 ≤ p.2 ∧ p.2 ≤ 1) (hm1 : MoodIn01 m1) (hm2 : MoodIn01 m2)
    (hw : 0 ≤ wa ∧ wa ≤ 1) :
    MoodIn01 (music_mood_from_vad v a d) ∧ MoodIn01 (mood_from_emotions em) ∧
    MoodIn01 (blend_moods m1 m2 wa) ∧ MoodIn01 DEFAULT_MOOD :=
  ⟨music_mood_in01 hv ha, mood_from_emotions_in01 (fun p hp2 => (hp p hp2).1),
    blend_in01 hm1 hm2 hw, default_mood_in01⟩

/-- C9 witness: instantiated at VAD (0.5,0.5,0.5), distribution
`{"joy": 1.0}`, default vectors and the code's blend weight 0.4. -/
theorem C9_mood_range_witness :
    MoodIn01 (music_mood_from_vad (1/2) (1/2) (1/2)) ∧
    MoodIn01 (mood_from_emotions [("joy", 1)]) ∧
    MoodIn01 (blend_moods DEFAULT_MOOD DEFAULT_MOOD (4/10)) ∧
    MoodIn01 DEFAULT_MOOD :=
  C9_mood_range (1/2) (1/2) (1/2) (4/10) [("joy", 1)] DEFAULT_MOOD DEFAULT_MOOD
    (by norm_num) (by norm_num) (by norm_num) (by norm_num)
    (by norm_num [MoodIn01, DEFAULT_MOOD]) (by norm_num [MoodIn01, DEFAULT_MOOD])
    (by norm_num)

/-- C10: the scan is a single terminating left-to-right pass: it is empty
once the index reaches the token count, every match advances by its length
of at least 1, the result is independent of any sufficient fuel (at most
n iterations), recorded matches never overlap, and every match lies within
the input. -/
theorem C10_scan_single_pass (lex : Lexicon) (toks : List (List Char)) :
    (∀ i fuel, toks.length ≤ i → scanFuel lex toks i fuel = []) ∧
    (∀ i L v, findMatch lex toks i = some (L, v) → 1 ≤ L) ∧
    (∀ fuel fuel2 i, toks.length - i ≤ fuel → toks.length - i ≤ fuel2 →
      scanFuel lex toks i fuel = scanFuel lex toks i fuel2) ∧
    (scanMatches lex toks).Pairwise (fun m m2 => m.1 + m.2.1 ≤ m2.1) ∧
    (∀ m ∈ scanMatches lex toks, m.1 + m.2.1 ≤ toks.length) :=
  ⟨fun _ _ h => scanFuel_stop h, fun _ _ _ h => (findMatch_some h).1,
    fun fuel fuel2 i h1 h2 => scanFuel_congr fuel fuel2 i h1 h2,
    scanFuel_pairwise _ _, fun m hm => (scanFuel_bounds _ _ m hm).2.2⟩

/-- C10 witness: on the three-token weighted fixture, scanning from
position 5 (past the end) yields no matches. -/
theorem C10_scan_single_pass_witness :
    scanFuel lexWeighted (tokenize textWeighted) 5 3 = [] :=
  (C10_scan_single_pass lexWeighted (tokenize textWeighted)).1 5 3 (by decide)

end MoodQuiz
